import Mathlib

/-!
Verification development for the wikibase registry builder.

The Rust sources are shallowly embedded: HTML documents become a small tree
type `Node`, the scraper selectors used by the code become `Sel`, registries
(Rust `BTreeMap`) become association lists (`Reg`), and every fallible Rust
function returns `Except`.  String manipulation is modelled on `String.data`
(`List Char`) with executable structural recursion, mirroring the byte-level
Rust operations character-wise (ASCII case mapping; the inputs exercised by
the registries are close enough to ASCII that this is faithful for every
property below).  Rust `panic!` sites are modelled as distinguished error
values, as the specification classifies them (caller-bug conditions).
-/

namespace Wikibase

/-! ### Character and string primitives (models of the Rust `str` methods) -/

/-- Model of `char::to_lowercase` restricted to its ASCII action, which is
also exactly what `Char.toLower` does. -/
def lowChar (c : Char) : Char :=
  if 65 ≤ c.toNat ∧ c.toNat ≤ 90 then Char.ofNat (c.toNat + 32) else c

/-- Model of Rust `char::is_whitespace`: the Unicode White_Space set
(U+0009..U+000D, U+0020, U+0085, U+00A0, U+1680, U+2000..U+200A, U+2028,
U+2029, U+202F, U+205F, U+3000). -/
def rustWs (c : Char) : Bool :=
  (9 ≤ c.toNat && c.toNat ≤ 13) || c.toNat == 32 || c.toNat == 133 ||
  c.toNat == 160 || c.toNat == 5760 ||
  (8192 ≤ c.toNat && c.toNat ≤ 8202) || c.toNat == 8232 ||
  c.toNat == 8233 || c.toNat == 8239 || c.toNat == 8287 || c.toNat == 12288

/-- Model of `str::trim`: drop leading and trailing Unicode whitespace. -/
def trimL (l : List Char) : List Char :=
  ((l.dropWhile rustWs).reverse.dropWhile rustWs).reverse

/-- Model of `str::to_lowercase`, character-wise. -/
def lowL (l : List Char) : List Char := l.map lowChar

/-- The segment strictly before the first occurrence of `d`
(`s.split(d).next()`). -/
def cutAt (d : Char) (l : List Char) : List Char :=
  l.takeWhile (fun c => !(c == d))

/-- Model of `str::replace(from, to)` for single characters. -/
def repChar (f t : Char) (l : List Char) : List Char :=
  l.map (fun c => if c == f then t else c)

def trimS (s : String) : String := ⟨trimL s.data⟩

def lowS (s : String) : String := ⟨lowL s.data⟩

def strLen (s : String) : Nat := s.data.length

/-- Tests whether `pat` is a leading segment of `l`. -/
def leadL : List Char → List Char → Bool
  | _, [] => true
  | [], _ :: _ => false
  | a :: as, b :: bs => a == b && leadL as bs

/-- Model of `str::starts_with`. -/
def leadsWith (s pat : String) : Bool := leadL s.data pat.data

/-- Digit-string evaluation; `none` on any non-digit. -/
def natOfDigits : List Char → Nat → Option Nat
  | [], acc => some acc
  | c :: t, acc =>
    if c.isDigit then natOfDigits t (acc * 10 + (c.toNat - 48)) else none

/-- Model of `str::parse::<u16>`: an optional leading plus sign, then at
least one digit, bounded by `u16::MAX`. -/
def parseU16 (s : String) : Option Nat :=
  match s.data with
  | [] => none
  | '+' :: [] => none
  | '+' :: c :: t =>
    (natOfDigits (c :: t) 0).bind (fun n => if n ≤ 65535 then some n else none)
  | l => (natOfDigits l 0).bind (fun n => if n ≤ 65535 then some n else none)

/-- Model of `str::split_whitespace`: maximal non-whitespace runs. -/
def splitWsAux : List Char → List Char → List String
  | [], cur => if cur.isEmpty then [] else [⟨cur.reverse⟩]
  | c :: t, cur =>
    if rustWs c then
      if cur.isEmpty then splitWsAux t [] else ⟨cur.reverse⟩ :: splitWsAux t []
    else splitWsAux t (c :: cur)

def splitWs (s : String) : List String := splitWsAux s.data []

/-! ### Identifier canonicalizer (src/types/mod.rs, `Identifier::new`) -/

structure Identifier where
  val : String
deriving DecidableEq, Repr

/-- The canonicalization pipeline of `Identifier::new` on character lists:
trim, lowercase, cut at the first comma, spaces to underscores, dashes to
underscores. -/
def canonList (l : List Char) : List Char :=
  repChar '-' '_' (repChar ' ' '_' (cutAt ',' (lowL (trimL l))))

def Identifier.new (exonym : String) : Identifier := ⟨⟨canonList exonym.data⟩⟩

/-! ### HTML model

A parsed document (`scraper::Html`) is a tree of element and text nodes.
The selectors the embedded code uses are plain tag selectors and the
attribute-presence selector (for the string `span[lang]`), captured by `Sel`;
carrying pre-parsed selectors models the fact that every selector literal in
the sources parses successfully. -/

inductive Node where
  | elem (tag : String) (attrs : List (String × String)) (children : List Node)
  | text (s : String)

inductive Sel where
  | tag (t : String)
  | tagAttr (t a : String)

mutual

/-- Descendant text nodes in document order (`ElementRef::text`). -/
def Node.texts : Node → List String
  | .text s => [s]
  | .elem _ _ cs => Node.textsList cs

def Node.textsList : List Node → List String
  | [] => []
  | n :: ns => Node.texts n ++ Node.textsList ns

end

def selHits (q : Sel) (t : String) (attrs : List (String × String)) : Bool :=
  match q with
  | .tag s => t == s
  | .tagAttr s a => t == s && attrs.any (fun p => p.1 == a)

mutual

/-- Descendant elements matching `q`, in document (preorder) order
(`ElementRef::select`); the element itself is not a candidate. -/
def Node.selIn (q : Sel) : Node → List Node
  | .text _ => []
  | .elem t a cs =>
    (if selHits q t a then [Node.elem t a cs] else []) ++ Node.selInList q cs

def Node.selInList (q : Sel) : List Node → List Node
  | [] => []
  | n :: ns => Node.selIn q n ++ Node.selInList q ns

end

def Node.sel (n : Node) (q : Sel) : List Node :=
  match n with
  | .text _ => []
  | .elem _ _ cs => Node.selInList q cs

/-- Model of `ElementRef::attr`. -/
def Node.attr (n : Node) (k : String) : Option String :=
  match n with
  | .text _ => none
  | .elem _ attrs _ => (attrs.find? (fun p => p.1 == k)).map (fun p => p.2)

/-! ### Link helpers (src/types/mod.rs) -/

/-- Model of `link_title_if`: the trimmed `title` attribute, provided `href` starts
with the given lead string. -/
def link_title_if (pre : String) (e : Node) : Option String :=
  if leadsWith ((e.attr "href").getD "") pre then
    (e.attr "title").map trimS
  else none

/-- Model of `link_text_if`: the first nonempty trimmed descendant text, provided
`href` starts with the given lead string. -/
def firstNonemptyTrimmed : List String → Option String
  | [] => none
  | s :: t =>
    let r := trimS s
    if r.data.isEmpty then firstNonemptyTrimmed t else some r

def link_text_if (pre : String) (e : Node) : Option String :=
  if leadsWith ((e.attr "href").getD "") pre then
    firstNonemptyTrimmed e.texts
  else none

/-- Model of `link_title_and_text_opt_if`: first title and first text found across the
elements, filled independently. -/
def lttAux (pre : String) : List Node → Option String → Option String →
    Option String × Option String
  | [], ti, te => (ti, te)
  | e :: es, ti, te =>
    let ti2 := if ti.isNone then link_title_if pre e else ti
    let te2 := if te.isNone then link_text_if pre e else te
    if ti2.isSome ∧ te2.isSome then (ti2, te2) else lttAux pre es ti2 te2

def link_title_and_text_opt_if (pre : String) (els : List Node) :
    Option String × Option String :=
  lttAux pre els none none

/-- Model of `inner_text_first_if`: first inner-text token whose trimmed length is
within the bounds. -/
def inner_text_first_if (lo : Nat) (hi : Option Nat) : List String → Option String
  | [] => none
  | i :: t =>
    let r := trimS i
    if r.data.length < lo then inner_text_first_if lo hi t
    else match hi with
      | some u =>
        if r.data.length > u then inner_text_first_if lo hi t else some r
      | none => some r

/-! ### Table scanner (src/map.rs) -/

inductive Select where
  | matching (q : Sel)
  | innerAsText
  | tdElement

inductive Found where
  | children (els : List Node)
  | innerText (ts : List String)
  | parent (e : Node)

/-- Schema type: `Include::All` carries a total column map, `Include::Some` (called the
Sparse schema by the spec, `sparse` here to avoid clashing with `Option`) a
partial one. Rust `HashMap`s become association lists; key order never
matters to the scanner. -/
inductive Include where
  | all (th_count : Nat) (td_map : List (Nat × Select))
  | sparse (th_count : Nat) (td_map : List (Nat × Option Select))

/-- A row record: extracted value per column index. -/
abbrev RowRec := List (Nat × Found)

def rowGet (m : RowRec) (i : Nat) : Option Found :=
  (m.find? (fun p => p.1 == i)).map (fun p => p.2)

def reqLen (collect : Include) : Nat :=
  match collect with
  | .all n _ => n
  | .sparse n _ => n

def thCount (t : Node) : Nat := (t.sel (.tag "th")).length

def tdCount (t : Node) : Nat := (t.sel (.tag "td")).length

/-- The row filter of `map_from_table_data` (lines 66-77): All keeps rows
whose td count equals the map size, Sparse those with at least as many tds
as there are rule-bearing columns. -/
def acceptRow (collect : Include) (r : Node) : Bool :=
  match collect with
  | .all _ m => tdCount r == m.length
  | .sparse _ m => decide (m.countP (fun p => p.2.isSome) ≤ tdCount r)

def applyRule (rule : Select) (td : Node) : Found :=
  match rule with
  | .matching q => .children (td.sel q)
  | .innerAsText => .innerText td.texts
  | .tdElement => .parent td

/-- One pass over the enumerated td cells of an accepted row. A missing
entry in an All map is the `panic!` at map.rs:89, modelled as an error. -/
def scanRowAux (collect : Include) : Nat → List Node → Except String RowRec
  | _, [] => .ok []
  | i, td :: tds =>
    match collect with
    | .all th m =>
      match (m.find? (fun p => p.1 == i)).map (fun p => p.2) with
      | none => .error "developer error: all columns collected but a selector is undefined"
      | some rule =>
        (scanRowAux (.all th m) (i + 1) tds).map
          (fun rest => (i, applyRule rule td) :: rest)
    | .sparse th m =>
      match (m.find? (fun p => p.1 == i)).map (fun p => p.2) with
      | none => scanRowAux (.sparse th m) (i + 1) tds
      | some none => scanRowAux (.sparse th m) (i + 1) tds
      | some (some rule) =>
        (scanRowAux (.sparse th m) (i + 1) tds).map
          (fun rest => (i, applyRule rule td) :: rest)

def scanRow (collect : Include) (r : Node) : Except String RowRec :=
  scanRowAux collect 0 (r.sel (.tag "td"))

def scanTable (collect : Include) (t : Node) : Except String (List RowRec) :=
  (((t.sel (.tag "tr")).filter (acceptRow collect)).mapM (scanRow collect))

/-- The tables actually processed: position filter first, then the
header-cell count test; non-qualifying tables are skipped silently. -/
def qualTables (collect : Include) (fil : Option (List Nat)) :
    Nat → List Node → List Node
  | _, [] => []
  | i, t :: ts =>
    let rest := qualTables collect fil (i + 1) ts
    if (match fil with | some r => r.contains i | none => true) then
      if thCount t == reqLen collect then t :: rest else rest
    else rest

/-- Model of `map_from_table_data` (src/map.rs): fails when the document has no
tables at all, otherwise scans every qualifying table in order. -/
def map_from_table_data (html : Node) (collect : Include)
    (table_index_filter : Option (List Nat)) : Except String (List RowRec) :=
  if (html.sel (.tag "table")).isEmpty then
    .error "Provided html document does not contain any tables"
  else
    ((qualTables collect table_index_filter 0 (html.sel (.tag "table"))).mapM
      (scanTable collect)).map List.flatten

/-! ### Registries

A Rust `BTreeMap<Identifier, V>` is modelled by its entry list.  Lookups and
in-place updates are key-based, so the claims below never depend on entry
order; where iteration order matters (the linear scans of the resolver),
input fixtures are written in ascending key order, matching `BTreeMap`
iteration. `regInsert` replaces an existing binding and otherwise appends. -/

abbrev Reg (α : Type) := List (Identifier × α)

def regGet {α} (m : Reg α) (k : Identifier) : Option α :=
  (m.find? (fun p => p.1 == k)).map (fun p => p.2)

def regHasKey {α} (m : Reg α) (k : Identifier) : Bool := (regGet m k).isSome

def regInsert {α} : Reg α → Identifier → α → Reg α
  | [], k, v => [(k, v)]
  | (k2, v2) :: t, k, v =>
    if k == k2 then (k, v) :: t else (k2, v2) :: regInsert t k v

/-- Performs a `get_mut`-style update of the binding at `k`. -/
def regAdjust {α} (m : Reg α) (k : Identifier) (f : α → α) : Reg α :=
  m.map (fun p => if p.1 == k then (p.1, f p.2) else p)

/-! ### Region data model (src/types/region.rs) -/

structure Iso3166_1 where
  a2 : String
  a3 : String
  num : Nat
deriving DecidableEq, Repr

structure Iso3166_2 where
  val : String
deriving DecidableEq, Repr

structure Tld where
  val : List String
deriving DecidableEq, Repr

/-- The validation loop of `Tld::new`: each entry is trimmed and lowercased
and must then be exactly three characters starting with a dot; the first
offender aborts construction. -/
def tldNewAux : List String → Except String (List String)
  | [] => .ok []
  | s :: t =>
    if leadsWith (lowS (trimS s)) "." ∧ strLen (lowS (trimS s)) = 3 then
      (tldNewAux t).map (fun r => lowS (trimS s) :: r)
    else .error ("Expected .xx domain tld, got " ++ lowS (trimS s))

def Tld.new (v : List String) : Except String Tld :=
  (tldNewAux v).map Tld.mk

structure Region where
  name : String
  state_name : String
  un_member : Bool
  sovereignity : Identifier
  iso_3166_1 : Iso3166_1
  iso_3166_2 : Iso3166_2
  tld : Tld
deriving DecidableEq, Repr

/-! ### Entity resolver (src/types/region.rs, `region_by_opt`) -/

/-- Resolver failure: `NotFound` carries the unmatched candidate names as in
the bail messages; `invalidArguments` models the panic taken when neither
candidate was supplied, which the spec classifies as the InvalidArguments
caller-bug condition. -/
inductive ResolveErr where
  | notFound (names : List String)
  | invalidArguments
deriving DecidableEq, Repr

/-- Case-insensitive match of candidate `c` against the two name fields. -/
def nameHit (c : String) (r : Region) : Bool :=
  lowS r.name == lowS (trimS c) || lowS r.state_name == lowS (trimS c)

/-- Model of `try_opt`: direct name-field scan of the registry, then the alias-table
scan — the first alias-matching entry only, kept when its identifier is a
registry key. -/
def try_opt (opt : Option String) (countries : Option (Reg (List String)))
    (regions : Reg Region) : Option (Identifier × Region) :=
  match opt with
  | none => none
  | some c =>
    match regions.find? (fun p => nameHit c p.2) with
    | some t => some t
    | none =>
      match countries with
      | none => none
      | some m =>
        match m.find? (fun p => p.2.any (fun b => lowS b == lowS (trimS c))) with
        | none => none
        | some (i, _) =>
          match regGet regions i with
          | some r => some (i, r)
          | none => none

def region_by_opt (regions : Reg Region)
    (countries : Option (Reg (List String)))
    (first second : Option String) : Except ResolveErr (Identifier × Region) :=
  match try_opt first countries regions with
  | some t => .ok t
  | none =>
    match try_opt second countries regions with
    | some t => .ok t
    | none =>
      match first, second with
      | some f, some s => .error (.notFound [f, s])
      | some f, none => .error (.notFound [f])
      | none, some s => .error (.notFound [s])
      | none, none => .error .invalidArguments

/-- Spec-side name step, written from the amended claim wording: an exact
case-insensitive (trimmed) match against the entity name fields first, then
the first alias-matching alias-table entry, kept only when its identifier
exists in the registry. -/
def specTryName (regions : Reg Region) (countries : Option (Reg (List String)))
    (c : String) : Option (Identifier × Region) :=
  match regions.find? (fun p =>
      lowS p.2.name == lowS (trimS c) || lowS p.2.state_name == lowS (trimS c)) with
  | some t => some t
  | none =>
    match countries.bind (fun m =>
        m.find? (fun p => p.2.any (fun b => lowS b == lowS (trimS c)))) with
    | some (i, _) => (regGet regions i).map (fun r => (i, r))
    | none => none

/-- Spec-side resolution function, written from the amended wording of the
resolution contract: the name step for each candidate in order; `NotFound`
names the supplied candidates and `invalidArguments` is the no-candidate
caller bug. -/
def resolveSpecOrdered (regions : Reg Region)
    (countries : Option (Reg (List String)))
    (first second : Option String) : Except ResolveErr (Identifier × Region) :=
  match first.bind (specTryName regions countries) with
  | some t => .ok t
  | none =>
    match second.bind (specTryName regions countries) with
    | some t => .ok t
    | none =>
      match first, second with
      | some f, some s => .error (.notFound [f, s])
      | some f, none => .error (.notFound [f])
      | none, some s => .error (.notFound [s])
      | none, none => .error .invalidArguments

/-! ### Currency builder (src/types/currency.rs) -/

structure Fraction where
  name : String
  basic : Nat
deriving DecidableEq, Repr

structure Currency where
  name : String
  symbol : String
  fraction : Fraction
  regions : List Identifier
deriving DecidableEq, Repr

def Currency.new (name symbol : String) (fraction : Fraction)
    (region : Option Identifier) : Currency :=
  { name := name, symbol := symbol, fraction := fraction,
    regions := match region with | some c => [c] | none => [] }

def currencyCols : List (Nat × Select) :=
  [(0, .matching (.tag "a")), (1, .matching (.tag "a")), (2, .innerAsText),
   (3, .innerAsText), (4, .matching (.tag "a")), (5, .innerAsText)]

/-- The body of the row loop of `Currency::from_html`: a `warn!`+`continue`
leaves the accumulator unchanged, a `bail!` aborts, a known settlement code
appends the resolved region (no membership check), an unknown one inserts a
fresh entity. -/
def currencyStep (regions : Reg Region) (countries : Option (Reg (List String)))
    (items : Reg Currency) (m : RowRec) : Except String (Reg Currency) :=
  match rowGet m 3 with
  | none => .ok items
  | some (Found.innerText v) =>
    match v.find? (fun s => strLen (trimS s) == 3) with
    | none => .ok items
    | some isoS =>
      let iso := Identifier.new isoS
      match rowGet m 0 with
      | none => .error "Expected country column"
      | some (Found.children v0) =>
        let tt := link_title_and_text_opt_if "/wiki/" v0
        match region_by_opt regions countries tt.1 tt.2 with
        | .error _ => .ok items
        | .ok (iso_id, _) =>
          if regHasKey items iso then
            .ok (regAdjust items iso
              (fun c => { c with regions := c.regions ++ [iso_id] }))
          else
            match rowGet m 1 with
            | none => .ok items
            | some (Found.children v1) =>
              match v1.findSome? (link_text_if "/wiki/") with
              | none => .ok items
              | some name =>
                match rowGet m 2 with
                | none => .ok items
                | some (Found.innerText v2) =>
                  match inner_text_first_if 1 none v2 with
                  | none => .ok items
                  | some s =>
                    let symbol : String := ⟨cutAt ' ' s.data⟩
                    match rowGet m 4 with
                    | none => .ok items
                    | some (Found.children v4) =>
                      match v4.findSome? (link_text_if "/wiki/") with
                      | none => .ok items
                      | some fraction_name =>
                        match rowGet m 5 with
                        | none => .ok items
                        | some (Found.innerText v5) =>
                          match v5.findSome? (fun s => parseU16 (trimS s)) with
                          | none => .ok items
                          | some fraction_basic =>
                            .ok (regInsert items iso
                              (Currency.new name symbol
                                ⟨fraction_name, fraction_basic⟩ (some iso_id)))
                        | some _ => .error "Expected inner text for fraction units"
                    | some _ => .error "Expected link element for currency fraction"
                | some _ => .error "Expected inner text for symbol"
            | some _ => .error "Expected link element for currency"
      | some _ => .error "Expected TD element children for country column"
  | some _ => .error "Expected inner text for currency ISO code"

def Currency.from_html (html : Node) (regions : Reg Region)
    (countries : Option (Reg (List String))) : Except String (Reg Currency) := do
  let rows ← map_from_table_data html (.all 6 currencyCols) none
  rows.foldlM (currencyStep regions countries) []

/-! ### Calling-code builder (src/types/calling_codes.rs) -/

structure CallingCode where
  val : String
deriving DecidableEq, Repr

def ccCols : List (Nat × Option Select) :=
  [(0, some .tdElement), (1, some (.matching (.tag "a"))), (2, none), (3, none)]

/-- The body of the row loop of `CallingCode::from_html`: a row resolving to
an already-populated key is discarded with a warning. -/
def ccStep (iso_3166 : Reg Region) (countries : Option (Reg (List String)))
    (items : Reg CallingCode) (m : RowRec) : Except String (Reg CallingCode) :=
  match rowGet m 1 with
  | none => .error "Expected calling code column"
  | some (Found.children v1) =>
    match v1.findSome? (link_text_if "/wiki/") with
    | none => .ok items
    | some code =>
      match rowGet m 0 with
      | none => .error "Expected country column"
      | some (Found.parent e) =>
        let vals := (e.texts.take 2).map trimS
        match region_by_opt iso_3166 countries (vals.get? 0) (vals.get? 1) with
        | .error _ => .ok items
        | .ok (iso_id, _) =>
          if regHasKey items iso_id then .ok items
          else .ok (regInsert items iso_id ⟨code⟩)
      | some _ => .error "Expected TD element children for country column"
  | some _ => .error "Expected link element in calling code column"

def CallingCode.from_html (html : Node) (iso_3166 : Reg Region)
    (countries : Option (Reg (List String))) : Except String (Reg CallingCode) := do
  let rows ← map_from_table_data html (.sparse 5 ccCols) none
  rows.foldlM (ccStep iso_3166 countries) []

/-! ### Capital builder (src/types/capital.rs) -/

structure Capital where
  name : String
  endonyms : Option (List String)
deriving DecidableEq, Repr

def capCols : List (Nat × Option Select) :=
  [(0, some (.matching (.tag "a"))), (1, some (.matching (.tag "a"))),
   (2, none), (3, some (.matching (.tagAttr "span" "lang"))), (4, none)]

/-- The endonym harvest of `Capital::from_html` (lines 90-103): per element,
the first descendant text node, trimmed — dropped when it is exactly equal
to the exonym (`name.eq(s.trim())`, a case-sensitive comparison). -/
def endonymCandidates (name : String) (els : List Node) : List String :=
  els.filterMap (fun e =>
    (e.texts.head?).bind (fun s =>
      if name = trimS s then none else some (trimS s)))

/-- Lines 105-108: an empty harvest is stored as no endonyms. -/
def extractEndonyms (name : String) (els : List Node) : Option (List String) :=
  match (endonymCandidates name els).length with
  | 0 => none
  | _ => some (endonymCandidates name els)

/-- The body of the row loop of `Capital::from_html`. -/
def capStep (regions : Reg Region) (countries : Option (Reg (List String)))
    (items : Reg Capital) (m : RowRec) : Except String (Reg Capital) :=
  match rowGet m 0 with
  | none => .error "Expected country column"
  | some (Found.children v0) =>
    let tt := link_title_and_text_opt_if "/wiki/" v0
    match region_by_opt regions countries tt.1 tt.2 with
    | .error _ => .ok items
    | .ok (iso_id, _) =>
      match rowGet m 1 with
      | none => .error "Expected capital column"
      | some (Found.children v1) =>
        match v1.findSome? (link_text_if "/wiki/") with
        | none => .ok items
        | some name =>
          match rowGet m 3 with
          | none => .error "Expected capital endonym column"
          | some (Found.children v3) =>
            .ok (regInsert items iso_id ⟨name, extractEndonyms name v3⟩)
          | some _ => .error "Expected inner text for capital endonym cell"
      | some _ => .error "Expected TD element children for capital column"
  | some _ => .error "Expected TD element children for country column"

def Capital.from_html (html : Node) (regions : Reg Region)
    (countries : Option (Reg (List String))) : Except String (Reg Capital) := do
  let rows ← map_from_table_data html (.sparse 5 capCols) none
  rows.foldlM (capStep regions countries) []

/-! ### Language zone pass (src/types/language.rs) -/

structure Iso639 where
  set1 : String
  set2_t : String
  set2_b : String
  set3 : String
deriving DecidableEq, Repr

structure Language where
  name_short : String
  name_long : String
  iso639 : Iso639
  regions : List Identifier
deriving DecidableEq, Repr

def EXCLUDE : List String :=
  ["has", "of", "de", "are", "in", "their", "they", "none", "and", "all", "have",
   "languages", "ethnic", "groups", "official", "territories", "facto",
   "status", "spoken", "another", "native", "wherever", "predominate",
   "autonomous", "republic"]

/-- Model of `el_text_splitter`: whitespace-split every descendant text node, keep
only the alphabetic characters of each token, drop short words and
stop-words. -/
def harvestWords (n : Node) : List String :=
  n.texts.flatMap (fun t =>
    (splitWs t).filterMap (fun s =>
      let word : List Char := s.data.filter Char.isAlpha
      if word.length < 3 then none
      else if EXCLUDE.contains ⟨lowL word⟩ then none
      else some ⟨word⟩))

/-- Ascending insertion sort on strings by character value, the order
`Vec::<String>::sort` produces. -/
def insStr (x : String) : List String → List String
  | [] => [x]
  | y :: t =>
    if x.data < y.data then x :: y :: t else y :: insStr x t

def sortStrs : List String → List String
  | [] => []
  | x :: t => insStr x (sortStrs t)

/-- Model of `Vec::dedup`: collapse adjacent duplicates. -/
def dedupAdj : List String → List String
  | [] => []
  | [a] => [a]
  | a :: b :: t => if a == b then dedupAdj (b :: t) else a :: dedupAdj (b :: t)

/-- The registry update at language.rs:279-291: the first language whose
short or long name matches gains the region, unless its `regions` list
already contains it. -/
def addRegionToLang (lcl : String) (region : Identifier) :
    Reg Language → Reg Language
  | [] => []
  | (k, l) :: t =>
    if lowS l.name_short == lcl || lowS l.name_long == lcl then
      (k, if l.regions.contains region then l
          else { l with regions := l.regions ++ [region] }) :: t
    else (k, l) :: addRegionToLang lcl region t

/-- Model of `process_td_cell`: harvest candidate names from list items, inline
anchors and the flat cell text, sort and dedup them, then credit the region
to every matching known language. -/
def process_td_cell (td_e : Node) (languages : Reg Language)
    (region : Identifier) : Reg Language :=
  let liItems := (td_e.sel (.tag "li")).foldl (fun acc li =>
    match link_text_if "/wiki/" li with
    | some l =>
      acc ++ [l] ++ (match link_title_if "/wiki/" li with
                     | some t => [t]
                     | none => [])
    | none => acc ++ harvestWords li) []
  let aItems := (td_e.sel (.tag "a")).foldl (fun acc a =>
    match link_text_if "/wiki/" a with
    | some l =>
      acc ++ [l] ++ (match link_title_if "/wiki/" a with
                     | some t => [t]
                     | none => [])
    | none => acc) liItems
  let items := dedupAdj (sortStrs (aItems ++ harvestWords td_e))
  items.foldl (fun ls i => addRegionToLang (lowS i) region ls) languages

/-! ### Concrete fixtures used by the witnesses and counterexamples -/

def aLinkT (href title txt : String) : Node :=
  .elem "a" [("href", href), ("title", title)] [.text txt]

def aLink (href txt : String) : Node := .elem "a" [("href", href)] [.text txt]

def tdOf (ns : List Node) : Node := .elem "td" [] ns

def trOf (ns : List Node) : Node := .elem "tr" [] ns

def headerRow (n : Nat) : Node :=
  .elem "tr" [] (List.replicate n (.elem "th" [] []))

def tableOf (n : Nat) (rows : List Node) : Node :=
  .elem "table" [] (headerRow n :: rows)

def docOf (ts : List Node) : Node := .elem "html" [] ts

def regionFoo : Region :=
  { name := "Fooland", state_name := "Foo State", un_member := true,
    sovereignity := ⟨"fooland"⟩, iso_3166_1 := ⟨"AA", "AAA", 100⟩,
    iso_3166_2 := ⟨"ISO 3166-2:AA"⟩, tld := ⟨[".aa"]⟩ }

def regionBar : Region :=
  { name := "Barland", state_name := "Bar State", un_member := true,
    sovereignity := ⟨"barland"⟩, iso_3166_1 := ⟨"BB", "BBB", 101⟩,
    iso_3166_2 := ⟨"ISO 3166-2:BB"⟩, tld := ⟨[".bb"]⟩ }

def regionsFix : Reg Region := [(⟨"aa"⟩, regionFoo), (⟨"bb"⟩, regionBar)]

/-- One data row of the circulating-currencies table. -/
def currencyRow (ctitle : String) : Node :=
  trOf [tdOf [aLinkT ("/wiki/" ++ ctitle) ctitle ctitle],
        tdOf [aLink "/wiki/Euro" "Euro"],
        tdOf [.text "E"],
        tdOf [.text "EUR"],
        tdOf [aLink "/wiki/Cent" "Cent"],
        tdOf [.text "100"]]

def currencyDoc : Node :=
  docOf [tableOf 6 [currencyRow "Fooland", currencyRow "Barland"]]

def currencyDupDoc : Node :=
  docOf [tableOf 6 [currencyRow "Fooland", currencyRow "Fooland"]]

def ccRow (cname code : String) : Node :=
  trOf [tdOf [.text cname], tdOf [aLink "/wiki/Tel" code], tdOf [], tdOf []]

def ccDoc : Node :=
  docOf [tableOf 5 [ccRow "Fooland" "+111", ccRow "Fooland" "+222"]]

def capRow : Node :=
  trOf [tdOf [aLinkT "/wiki/Fooland" "Fooland" "Fooland"],
        tdOf [aLink "/wiki/Paris" "Paris"],
        tdOf [],
        tdOf [.elem "span" [("lang", "fr")] [.text "paris"]],
        tdOf []]

def capDoc : Node := docOf [tableOf 5 [capRow]]

def sparseCols : List (Nat × Option Select) :=
  [(0, some .innerAsText), (1, none), (2, some .innerAsText), (3, none)]

def sparseRow : Node := trOf [tdOf [.text "x"], tdOf [.text "y"], tdOf [.text "z"]]

def sparseDoc : Node := docOf [tableOf 4 [sparseRow]]

def emptyDoc : Node := docOf []

def noMatchDoc : Node := docOf [tableOf 2 []]

def allInner3 : List (Nat × Select) :=
  [(0, .innerAsText), (1, .innerAsText), (2, .innerAsText)]

def regionBee : Region :=
  { name := "Beeland", state_name := "Bee State", un_member := true,
    sovereignity := ⟨"beeland"⟩, iso_3166_1 := ⟨"BE", "BEE", 102⟩,
    iso_3166_2 := ⟨"ISO 3166-2:BE"⟩, tld := ⟨[".be"]⟩ }

def regionsBee : Reg Region := [(⟨"b"⟩, regionBee)]

/-- Alias table in ascending key order: the entry at key `a` matches the
alias `x` but `a` is not a registry key; the entry at key `b` also matches
`x` and `b` is a registry key. -/
def aliasesTwo : Reg (List String) := [(⟨"a"⟩, ["x"]), (⟨"b"⟩, ["x"])]

def frenchLang : Language :=
  { name_short := "French", name_long := "French",
    iso639 := ⟨"fr", "fra", "fre", "fra"⟩, regions := [] }

def langsFix : Reg Language := [(⟨"fra"⟩, frenchLang)]

def langCell : Node :=
  tdOf [.elem "li" [] [aLink "/wiki/French_language" "French"]]

def euroFix : Currency :=
  { name := "Euro", symbol := "E", fraction := ⟨"Cent", 100⟩,
    regions := [⟨"aa"⟩, ⟨"bb"⟩] }

def euroAA : Currency :=
  { name := "Euro", symbol := "E", fraction := ⟨"Cent", 100⟩,
    regions := [⟨"aa"⟩] }

def euroDup : Currency :=
  { name := "Euro", symbol := "E", fraction := ⟨"Cent", 100⟩,
    regions := [⟨"aa"⟩, ⟨"aa"⟩] }

def euroItems : Reg Currency := [(⟨"eur"⟩, euroAA)]

/-- The row record the scanner produces for `currencyRow "Barland"`. -/
def rowRecBar : RowRec :=
  [(0, .children [aLinkT "/wiki/Barland" "Barland" "Barland"]),
   (1, .children [aLink "/wiki/Euro" "Euro"]),
   (2, .innerText ["E"]),
   (3, .innerText ["EUR"]),
   (4, .children [aLink "/wiki/Cent" "Cent"]),
   (5, .innerText ["100"])]

def ccItems : Reg CallingCode := [(⟨"aa"⟩, ⟨"+111"⟩)]

/-- The row record the scanner produces for `ccRow "Fooland" "+222"`. -/
def rowRecCC : RowRec :=
  [(0, .parent (tdOf [.text "Fooland"])),
   (1, .children [aLink "/wiki/Tel" "+222"])]

def capParis : Capital := ⟨"Paris", some ["paris"]⟩

def frenchAA : Language :=
  { name_short := "French", name_long := "French",
    iso639 := ⟨"fr", "fra", "fre", "fra"⟩, regions := [⟨"aa"⟩] }

/-! ### Helper lemmas -/

theorem map_self {α : Type} {f : α → α} :
    ∀ {l : List α}, (∀ a ∈ l, f a = a) → l.map f = l := by
  intro l
  induction l with
  | nil => intro _; rfl
  | cons a t ih =>
    intro h
    simp only [List.map_cons]
    rw [h a (List.mem_cons_self a t), ih (fun b hb => h b (List.mem_cons_of_mem a hb))]

theorem charToNat_ofNat (n : Nat) (h : n < 55296) : (Char.ofNat n).toNat = n := by
  have hv : n.isValidChar := Or.inl h
  rw [Char.ofNat, dif_pos hv]
  simp [Char.ofNatAux, Char.toNat, UInt32.toNat]

theorem lowChar_lowChar (c : Char) : lowChar (lowChar c) = lowChar c := by
  unfold lowChar
  by_cases h : 65 ≤ c.toNat ∧ c.toNat ≤ 90
  · rw [if_pos h]
    have ht : (Char.ofNat (c.toNat + 32)).toNat = c.toNat + 32 :=
      charToNat_ofNat _ (by omega)
    rw [if_neg (by omega)]
  · rw [if_neg h, if_neg h]

theorem lowChar_eq_low {c d : Char} (hd : d.toNat < 65) (h : lowChar c = d) :
    c = d := by
  unfold lowChar at h
  by_cases hr : 65 ≤ c.toNat ∧ c.toNat ≤ 90
  · rw [if_pos hr] at h
    have := congrArg Char.toNat h
    rw [charToNat_ofNat _ (by omega)] at this
    exfalso; omega
  · rwa [if_neg hr] at h

theorem canon_mem {l : List Char} {c : Char} (h : c ∈ canonList l) :
    lowChar c = c ∧ c ≠ ',' ∧ c ≠ ' ' ∧ c ≠ '-' := by
  unfold canonList repChar at h
  obtain ⟨c1, hc1, rfl⟩ := List.mem_map.1 h
  obtain ⟨c0, hc0, rfl⟩ := List.mem_map.1 hc1
  unfold cutAt at hc0
  have hnc := List.mem_takeWhile_imp hc0
  have hc0m : c0 ∈ lowL (trimL l) := List.takeWhile_subset _ hc0
  unfold lowL at hc0m
  obtain ⟨c2, _, rfl⟩ := List.mem_map.1 hc0m
  simp only [Bool.not_eq_eq_eq_not, Bool.not_true, beq_eq_false_iff_ne, ne_eq] at hnc
  by_cases hsp : lowChar c2 = ' '
  · rw [hsp]; decide
  · by_cases hda : lowChar c2 = '-'
    · rw [hda]; decide
    · have h1 : (lowChar c2 == ' ') = false := by simp [hsp]
      have h2 : (lowChar c2 == '-') = false := by simp [hda]
      simp only [h1, Bool.false_eq_true, if_false, h2]
      exact ⟨lowChar_lowChar c2, hnc, hsp, hda⟩

theorem canon_canon {l : List Char} (h : trimL (canonList l) = canonList l) :
    canonList (canonList l) = canonList l := by
  show repChar '-' '_' (repChar ' ' '_' (cutAt ',' (lowL (trimL (canonList l))))) =
    canonList l
  rw [h]
  have h1 : lowL (canonList l) = canonList l :=
    map_self (fun a ha => (canon_mem ha).1)
  rw [show lowL (canonList l) = (canonList l).map lowChar from rfl] at h1
  show repChar '-' '_' (repChar ' ' '_' (cutAt ',' (lowL (canonList l)))) = canonList l
  rw [show lowL (canonList l) = (canonList l).map lowChar from rfl, h1]
  have h2 : cutAt ',' (canonList l) = canonList l := by
    unfold cutAt
    rw [List.takeWhile_eq_self_iff.2 ?_]
    intro x hx
    simp [(canon_mem hx).2.1]
  rw [h2]
  have h3 : repChar ' ' '_' (canonList l) = canonList l := by
    unfold repChar
    exact map_self (fun a ha => by simp [(canon_mem ha).2.2.1])
  rw [h3]
  unfold repChar
  exact map_self (fun a ha => by simp [(canon_mem ha).2.2.2])

theorem try_opt_bind (opt : Option String)
    (countries : Option (Reg (List String))) (regions : Reg Region) :
    try_opt opt countries regions = opt.bind (specTryName regions countries) := by
  cases opt with
  | none => rfl
  | some c =>
    show try_opt (some c) countries regions = specTryName regions countries c
    unfold try_opt specTryName nameHit
    cases hf : List.find? (fun p =>
        lowS p.2.name == lowS (trimS c) || lowS p.2.state_name == lowS (trimS c))
        regions with
    | some t => simp [hf]
    | none =>
      cases countries with
      | none => simp [hf]
      | some m =>
        cases hm : List.find? (fun p => p.2.any fun b => lowS b == lowS (trimS c)) m with
        | none => simp [hf, hm]
        | some pr =>
          obtain ⟨i, x⟩ := pr
          cases hg : regGet regions i with
          | some r => simp [hf, hm, hg]
          | none => simp [hf, hm, hg]

theorem regAdjust_keys {α : Type} (m : Reg α) (k : Identifier) (f : α → α) :
    (regAdjust m k f).map Prod.fst = m.map Prod.fst := by
  unfold regAdjust
  induction m with
  | nil => rfl
  | cons p t ih =>
    simp only [List.map_cons, List.map_map] at ih ⊢
    by_cases h : (p.1 == k) = true
    · simp [h] at ih ⊢; exact ih
    · simp only [Bool.not_eq_true] at h
      simp [h] at ih ⊢; exact ih

theorem regInsert_keys {α : Type} (x k : Identifier) (v : α) :
    ∀ m : Reg α, x ∈ (regInsert m k v).map Prod.fst →
      x ∈ m.map Prod.fst ∨ x = k := by
  intro m
  induction m with
  | nil => intro h; simp [regInsert] at h; exact Or.inr h
  | cons p t ih =>
    intro h
    unfold regInsert at h
    by_cases hk : (k == p.1) = true
    · rw [if_pos hk] at h
      simp only [List.map_cons, List.mem_cons] at h ⊢
      rcases h with h | h
      · exact Or.inr h
      · exact Or.inl (Or.inr h)
    · rw [if_neg hk] at h
      simp only [List.map_cons, List.mem_cons] at h ⊢
      rcases h with h | h
      · exact Or.inl (Or.inl h)
      · rcases ih h with h2 | h2
        · exact Or.inl (Or.inr h2)
        · exact Or.inr h2

theorem regInsert_nodup {α : Type} (k : Identifier) (v : α) :
    ∀ m : Reg α, (m.map Prod.fst).Nodup →
      ((regInsert m k v).map Prod.fst).Nodup := by
  intro m
  induction m with
  | nil => intro _; simp [regInsert]
  | cons p t ih =>
    intro h
    unfold regInsert
    simp only [List.map_cons, List.nodup_cons] at h
    by_cases hk : (k == p.1) = true
    · rw [if_pos hk]
      simp only [List.map_cons, List.nodup_cons]
      exact ⟨fun hx => h.1 ((beq_iff_eq.1 hk) ▸ hx), h.2⟩
    · rw [if_neg hk]
      simp only [List.map_cons, List.nodup_cons]
      refine ⟨fun hx => ?_, ih h.2⟩
      rcases regInsert_keys p.1 k v t hx with h2 | h2
      · exact h.1 h2
      · exact hk (beq_iff_eq.2 h2.symm)

theorem foldlM_except_inv {σ β : Type} (step : σ → β → Except String σ)
    (P : σ → Prop) (hstep : ∀ s b s2, step s b = .ok s2 → P s → P s2) :
    ∀ (l : List β) (s s2 : σ), l.foldlM step s = .ok s2 → P s → P s2 := by
  intro l
  induction l with
  | nil =>
    intro s s2 h hp
    simp only [List.foldlM] at h
    exact (Except.ok.inj h) ▸ hp
  | cons b t ih =>
    intro s s2 h hp
    simp only [List.foldlM] at h
    cases hb : step s b with
    | error e => rw [hb] at h; exact Except.noConfusion h
    | ok s1 =>
      rw [hb] at h
      exact ih s1 s2 h (hstep s b s1 hb hp)

theorem qualTables_nil (collect : Include) (fil : Option (List Nat)) :
    ∀ (ts : List Node) (i : Nat), (∀ t ∈ ts, thCount t ≠ reqLen collect) →
      qualTables collect fil i ts = [] := by
  intro ts
  induction ts with
  | nil => intro _ _; rfl
  | cons t rest ih =>
    intro i h
    unfold qualTables
    rw [ih (i + 1) (fun x hx => h x (List.mem_cons_of_mem t hx))]
    have hne : (thCount t == reqLen collect) = false :=
      beq_eq_false_iff_ne.2 (h t (List.mem_cons_self t rest))
    rw [hne]
    split <;> rfl

/-- Spec-side row acceptance, written from the claim wording: under an
Exact (All) schema a row is accepted when its data-cell count equals the
number of mapped columns; under a Sparse (Some) schema when its data-cell
count is at least the number of rule-bearing (non-ignored) columns. -/
def specAccept (collect : Include) (r : Node) : Bool :=
  match collect with
  | Include.all _ m => tdCount r == m.length
  | Include.sparse _ m =>
    decide (m.countP (fun p => p.2.isSome) ≤ tdCount r)

theorem specAccept_eq (collect : Include) :
    specAccept collect = acceptRow collect := by
  funext r
  cases collect <;> rfl

theorem tldNewAux_ok (v : List String) :
    ((∃ r, tldNewAux v = .ok r) ↔
      ∀ s ∈ v, leadsWith (lowS (trimS s)) "." ∧ strLen (lowS (trimS s)) = 3)
    ∧ (∀ r, tldNewAux v = .ok r → r = v.map (fun s => lowS (trimS s))) := by
  induction v with
  | nil =>
    refine ⟨⟨fun _ => by simp, fun _ => ⟨[], rfl⟩⟩, fun r h => ?_⟩
    exact (Except.ok.inj h).symm
  | cons s t ih =>
    constructor
    · constructor
      · rintro ⟨r, hr⟩ x hx
        unfold tldNewAux at hr
        by_cases hv : leadsWith (lowS (trimS s)) "." ∧ strLen (lowS (trimS s)) = 3
        · rw [if_pos hv] at hr
          rcases List.mem_cons.1 hx with rfl | hx2
          · exact hv
          · cases ht : tldNewAux t with
            | error e => rw [ht] at hr; exact Except.noConfusion hr
            | ok rt => exact (ih.1.1 ⟨rt, ht⟩) x hx2
        · rw [if_neg hv] at hr; exact Except.noConfusion hr
      · intro hall
        unfold tldNewAux
        rw [if_pos (hall s (List.mem_cons_self s t))]
        obtain ⟨rt, ht⟩ := ih.1.2 (fun x hx => hall x (List.mem_cons_of_mem s hx))
        exact ⟨_, by rw [ht]; rfl⟩
    · intro r hr
      unfold tldNewAux at hr
      by_cases hv : leadsWith (lowS (trimS s)) "." ∧ strLen (lowS (trimS s)) = 3
      · rw [if_pos hv] at hr
        cases ht : tldNewAux t with
        | error e => rw [ht] at hr; exact Except.noConfusion hr
        | ok rt =>
          rw [ht] at hr
          rw [← Except.ok.inj hr, ih.2 rt ht]
          rfl
      · rw [if_neg hv] at hr; exact Except.noConfusion hr

/-! ### Claim theorems -/

/-- Claim C1 (amended): the resolver tries, in order, a case-insensitive
trimmed match of the first candidate against each entity name field or
state-name field, then the first alias-matching alias-table entry — kept
only when that entry's identifier exists in the registry — and then the same
two steps for the second candidate (`region_by_opt` coincides with the
spec-side ordered resolution everywhere); in particular a direct name-field
match on the first candidate resolves to that entity regardless of the alias
table and the second candidate. -/
theorem c1_resolver_order :
    (∀ (regions : Reg Region) (countries : Option (Reg (List String)))
        (first second : Option String),
      region_by_opt regions countries first second =
        resolveSpecOrdered regions countries first second)
    ∧ (∀ (regions : Reg Region) (countries : Option (Reg (List String)))
        (f : String) (second : Option String) (i : Identifier) (r : Region),
      regions.find? (fun p => nameHit f p.2) = some (i, r) →
      region_by_opt regions countries (some f) second = .ok (i, r)) := by
  constructor
  · intro regions countries first second
    unfold region_by_opt resolveSpecOrdered
    rw [try_opt_bind, try_opt_bind]
  · intro regions countries f second i r h
    have ht : try_opt (some f) countries regions = some (i, r) := by
      simp only [try_opt, h]
    unfold region_by_opt
    rw [ht]

theorem c1_resolver_order_witness :
    region_by_opt regionsFix none (some "Fooland") (some "zz") =
      .ok (⟨"aa"⟩, regionFoo) :=
  c1_resolver_order.2 regionsFix none "Fooland" (some "zz") ⟨"aa"⟩ regionFoo rfl

/-- Claim C1 as frozen is false: with registry `regionsBee` (single key `b`)
and alias table `aliasesTwo`, the candidate `x` matches the alias list of
the entry at key `b`, whose identifier is a registry key, and matches no
name field — the claim demands success through the alias step, but the code
inspects only the first alias-matching entry (key `a`, not a registry key)
and fails with not-found. -/
theorem c1_resolver_order_counterexample :
    region_by_opt regionsBee (some aliasesTwo) (some "x") none =
      .error (.notFound ["x"])
    ∧ (aliasesTwo.any (fun p => p.2.contains "x" && regHasKey regionsBee p.1)) = true
    ∧ regionsBee.find? (fun p => nameHit "x" p.2) = none :=
  ⟨rfl, by decide, rfl⟩

/-- Claim C8: with no candidate supplied the resolver fails with the
InvalidArguments caller-bug condition (the panic at region.rs:337), and with
at least one candidate supplied but none matching it fails with a NotFound
error naming exactly the supplied candidates. -/
theorem c8_resolver_errors :
    (∀ (regions : Reg Region) (countries : Option (Reg (List String))),
      region_by_opt regions countries none none = .error .invalidArguments)
    ∧ (∀ regions countries (f : String),
        try_opt (some f) countries regions = none →
        region_by_opt regions countries (some f) none = .error (.notFound [f]))
    ∧ (∀ regions countries (s : String),
        try_opt (some s) countries regions = none →
        region_by_opt regions countries none (some s) = .error (.notFound [s]))
    ∧ (∀ regions countries (f s : String),
        try_opt (some f) countries regions = none →
        try_opt (some s) countries regions = none →
        region_by_opt regions countries (some f) (some s) =
          .error (.notFound [f, s])) := by
  refine ⟨fun _ _ => rfl, fun regions countries f h => ?_,
    fun regions countries s h => ?_, fun regions countries f s hf hs => ?_⟩
  · unfold region_by_opt; rw [h]; rfl
  · unfold region_by_opt; rw [h]; rfl
  · unfold region_by_opt; rw [hf, hs]

theorem c8_resolver_errors_witness :
    region_by_opt regionsFix none (some "zzz") none = .error (.notFound ["zzz"]) :=
  c8_resolver_errors.2.1 regionsFix none "zzz" rfl

/-- Claim C9 (amended): `Tld::new` succeeds exactly when every entry, after
trimming and lowercasing, starts with a dot and is exactly three characters
long, and the constructed value is the list of cleaned entries; the empty
list satisfies this vacuously, so construction succeeds on it with an empty
`Tld` (the frozen claim wrongly demanded failure there). -/
theorem c9_tld_validation (v : List String) :
    ((∃ t, Tld.new v = .ok t) ↔
      ∀ s ∈ v, leadsWith (lowS (trimS s)) "." ∧ strLen (lowS (trimS s)) = 3)
    ∧ (∀ t : Tld, Tld.new v = .ok t → t.val = v.map (fun s => lowS (trimS s))) := by
  constructor
  · constructor
    · rintro ⟨t, ht⟩
      unfold Tld.new at ht
      cases hr : tldNewAux v with
      | error e => rw [hr] at ht; exact Except.noConfusion ht
      | ok r => exact (tldNewAux_ok v).1.1 ⟨r, hr⟩
    · intro h
      obtain ⟨r, hr⟩ := (tldNewAux_ok v).1.2 h
      exact ⟨⟨r⟩, by unfold Tld.new; rw [hr]; rfl⟩
  · intro t ht
    unfold Tld.new at ht
    cases hr : tldNewAux v with
    | error e => rw [hr] at ht; exact Except.noConfusion ht
    | ok r =>
      rw [hr] at ht
      rw [← Except.ok.inj ht]
      exact (tldNewAux_ok v).2 r hr

theorem c9_tld_validation_witness :
    (⟨[".aa"]⟩ : Tld).val = [" .AA "].map (fun s => lowS (trimS s)) :=
  (c9_tld_validation [" .AA "]).2 ⟨[".aa"]⟩ rfl

/-- Claim C9 as frozen is false at the empty list: `Tld::new(vec![])`
iterates over nothing and succeeds with an empty `Tld`, it does not fail. -/
theorem c9_tld_validation_counterexample : Tld.new [] = .ok ⟨[]⟩ := rfl

/-- Claim C4 (amended): the scanner errors exactly on a document with no
tables at all; when tables exist but none has the required header-cell
count, every table is skipped and the scan returns an empty row sequence
successfully — there is no builder-level failure in that case. -/
theorem c4_scanner_no_tables :
    (∀ (html : Node) collect fil, html.sel (.tag "table") = [] →
      map_from_table_data html collect fil =
        .error "Provided html document does not contain any tables")
    ∧ (∀ (html : Node) collect fil, html.sel (.tag "table") ≠ [] →
        (∀ t ∈ html.sel (.tag "table"), thCount t ≠ reqLen collect) →
        map_from_table_data html collect fil = .ok []) := by
  constructor
  · intro html collect fil h
    unfold map_from_table_data
    rw [h]
    rfl
  · intro html collect fil hne hq
    unfold map_from_table_data
    rw [qualTables_nil collect fil _ 0 hq,
      if_neg (by simp only [List.isEmpty_iff]; exact hne)]
    rfl

theorem c4_scanner_no_tables_witness :
    map_from_table_data emptyDoc (.all 3 allInner3) none =
      .error "Provided html document does not contain any tables" :=
  c4_scanner_no_tables.1 emptyDoc (.all 3 allInner3) none rfl

/-- Claim C4 as frozen is false in its second half: `noMatchDoc` contains a
table (with two header cells, against a required count of three), and the
scan returns the empty row sequence successfully instead of failing. -/
theorem c4_scanner_no_tables_counterexample :
    noMatchDoc.sel (.tag "table") = [tableOf 2 []]
    ∧ thCount (tableOf 2 []) = 2
    ∧ reqLen (.all 3 allInner3) = 3
    ∧ map_from_table_data noMatchDoc (.all 3 allInner3) none = .ok [] :=
  ⟨rfl, rfl, rfl, rfl⟩

/-- Claim C5: for a qualifying table the scanner accepts a row exactly when,
under an Exact (All) schema, its data-cell count equals the number of mapped
columns, and under a Sparse (Some) schema, its data-cell count is at least
the number of rule-bearing columns; in particular the Sparse schema with two
rule-bearing columns out of four mapped indices accepts the three-cell row
of `sparseDoc` and produces values only for the two ruled columns. -/
theorem c5_row_acceptance :
    (∀ (collect : Include) (table doc : Node) (fil : Option (List Nat)),
      doc.sel (.tag "table") = [table] →
      thCount table = reqLen collect →
      (match fil with | some r => r.contains 0 | none => true) = true →
      map_from_table_data doc collect fil =
        ((table.sel (.tag "tr")).filter (specAccept collect)).mapM
          (scanRow collect))
    ∧ map_from_table_data sparseDoc (.sparse 4 sparseCols) none =
        .ok [[(0, .innerText ["x"]), (2, .innerText ["z"])]] := by
  constructor
  · intro collect table doc fil hdoc hth hfil
    unfold map_from_table_data
    rw [hdoc, if_neg (by simp)]
    have hq : qualTables collect fil 0 [table] = [table] := by
      unfold qualTables
      rw [if_pos hfil, if_pos (beq_iff_eq.2 hth)]
      rfl
    rw [hq, specAccept_eq]
    show ([table].mapM (scanTable collect)).map List.flatten =
      scanTable collect table
    cases hs : scanTable collect table with
    | error e => simp [List.mapM, List.mapM.loop, hs, Except.map, Except.bind]
    | ok rows => simp [List.mapM, List.mapM.loop, hs, Except.map, Except.bind]
  · rfl

theorem c5_row_acceptance_witness :
    map_from_table_data sparseDoc (.sparse 4 sparseCols) none =
      (((tableOf 4 [sparseRow]).sel (.tag "tr")).filter
        (specAccept (.sparse 4 sparseCols))).mapM
        (scanRow (.sparse 4 sparseCols)) :=
  c5_row_acceptance.1 (.sparse 4 sparseCols) (tableOf 4 [sparseRow]) sparseDoc
    none rfl rfl rfl

/-- Claim C2 (amended): the canonicalizer is idempotent on every input whose
canonical form is already whitespace-trimmed — equivalently, whenever no
whitespace other than a plain space survives immediately before the cut at
the first comma.  (It is not idempotent in general: a tab before the comma
survives the first pass and is trimmed by the second, see the
counterexample.) -/
theorem c2_canonicalize_idempotent (s : String)
    (h : trimL (canonList s.data) = canonList s.data) :
    Identifier.new (Identifier.new s).val = Identifier.new s := by
  unfold Identifier.new
  exact congrArg (fun l => Identifier.mk (String.mk l)) (canon_canon h)

theorem c2_canonicalize_idempotent_witness :
    Identifier.new (Identifier.new "A b-c").val = Identifier.new "A b-c" :=
  c2_canonicalize_idempotent "A b-c" (by decide)

/-- Claim C2 as frozen is false: on `"a\t,b"` the first pass yields `"a\t"`
(the tab survives because only spaces are replaced and trimming happened
before the cut), and the second pass trims it to `"a"`. -/
theorem c2_canonicalize_idempotent_counterexample :
    Identifier.new (Identifier.new "a\t,b").val ≠ Identifier.new "a\t,b" := by
  decide

/-- Claim C7 (amended): the capital builder excludes an endonym exactly when
its trimmed text is equal — by a case-sensitive comparison — to the exonym,
and an empty resulting list is stored as no endonyms (`none`), never as
`some []`; every retained endonym differs from the exonym. -/
theorem c7_capital_endonyms :
    (∀ (name : String) (els : List Node), extractEndonyms name els ≠ some [])
    ∧ (∀ (name : String) (els : List Node) (l : List String),
        extractEndonyms name els = some l → ∀ e ∈ l, e ≠ name)
    ∧ (∀ (name : String) (els : List Node),
        (∀ e ∈ els, ∀ t, (Node.texts e).head? = some t → trimS t = name) →
        extractEndonyms name els = none) := by
  refine ⟨?_, ?_, ?_⟩
  · intro name els
    cases hl : (endonymCandidates name els).length with
    | zero => simp [extractEndonyms, hl]
    | succ n =>
      simp only [extractEndonyms, hl, ne_eq, Option.some.injEq]
      intro hc
      rw [hc] at hl
      simp at hl
  · intro name els l h e he
    have hl2 : l = endonymCandidates name els := by
      cases hl : (endonymCandidates name els).length with
      | zero => simp [extractEndonyms, hl] at h
      | succ n =>
        simp only [extractEndonyms, hl, Option.some.injEq] at h
        exact h.symm
    subst hl2
    unfold endonymCandidates at he
    obtain ⟨a, ha, hb⟩ := List.mem_filterMap.1 he
    cases ht : (Node.texts a).head? with
    | none => rw [ht] at hb; exact Option.noConfusion hb
    | some t =>
      rw [ht] at hb
      by_cases heq : name = trimS t
      · rw [show ((some t).bind (fun s =>
            if name = trimS s then none else some (trimS s))) =
            (if name = trimS t then none else some (trimS t)) from rfl,
          if_pos heq] at hb
        exact Option.noConfusion hb
      · rw [show ((some t).bind (fun s =>
            if name = trimS s then none else some (trimS s))) =
            (if name = trimS t then none else some (trimS t)) from rfl,
          if_neg heq] at hb
        intro hcontra
        exact heq ((Option.some.inj hb).trans hcontra).symm
  · intro name els hall
    have hc : endonymCandidates name els = [] := by
      unfold endonymCandidates
      rw [List.filterMap_eq_nil_iff]
      intro a ha
      cases ht : (Node.texts a).head? with
      | none => rfl
      | some t =>
        show (if name = trimS t then none else some (trimS t)) = none
        rw [if_pos (hall a ha t ht).symm]
    simp [extractEndonyms, hc]

theorem c7_capital_endonyms_witness :
    extractEndonyms "Paris" [Node.elem "span" [("lang", "fr")] [.text "Paris"]] =
      none :=
  c7_capital_endonyms.2.2 "Paris" [Node.elem "span" [("lang", "fr")] [.text "Paris"]]
    (by
      intro e he t ht
      rw [List.mem_singleton] at he
      subst he
      have h1 : t = "Paris" := Option.some.inj ht.symm
      subst h1
      decide)

/-- Claim C7 as frozen is false: the comparison at capital.rs:95 is
case-sensitive, so the endonym `"paris"`, equal to the exonym `"Paris"`
under case normalization, is retained rather than excluded. -/
theorem c7_capital_endonyms_counterexample :
    Capital.from_html capDoc regionsFix none = .ok [(⟨"aa"⟩, capParis)]
    ∧ lowS (trimS "paris") = lowS (trimS "Paris")
    ∧ capParis.endonyms = some ["paris"] :=
  ⟨rfl, by decide, rfl⟩

/-- Claim C3: when a row carries a settlement code already present in the
registry and its territory resolves, the currency builder updates the
existing entry by appending the resolved region identifier — `regAdjust`
keeps the key set unchanged, so no second entity is ever created — and on
the concrete two-row document with code `EUR` resolving to two different
territories the output holds exactly one Currency whose `regions` list has
length two. -/
theorem c3_currency_merge :
    (∀ (regions : Reg Region) (countries : Option (Reg (List String)))
        (items : Reg Currency) (m : RowRec) (ts : List String) (isoS : String)
        (els : List Node) (rid : Identifier) (reg : Region),
      rowGet m 3 = some (.innerText ts) →
      ts.find? (fun s => strLen (trimS s) == 3) = some isoS →
      rowGet m 0 = some (.children els) →
      region_by_opt regions countries
        (link_title_and_text_opt_if "/wiki/" els).1
        (link_title_and_text_opt_if "/wiki/" els).2 = .ok (rid, reg) →
      regHasKey items (Identifier.new isoS) = true →
      currencyStep regions countries items m =
        .ok (regAdjust items (Identifier.new isoS)
          (fun c => { c with regions := c.regions ++ [rid] })))
    ∧ (∀ (items : Reg Currency) (k : Identifier) (f : Currency → Currency),
        (regAdjust items k f).map Prod.fst = items.map Prod.fst)
    ∧ Currency.from_html currencyDoc regionsFix none = .ok [(⟨"eur"⟩, euroFix)]
    ∧ euroFix.regions.length = 2 := by
  refine ⟨?_, fun items k f => regAdjust_keys items k f, rfl, rfl⟩
  intro regions countries items m ts isoS els rid reg h3 hfind h0 hres hhas
  simp only [currencyStep, h3, hfind, h0, hres, hhas, if_true]

theorem c3_currency_merge_witness :
    currencyStep regionsFix none euroItems rowRecBar =
      .ok (regAdjust euroItems (Identifier.new "EUR")
        (fun c => { c with regions := c.regions ++ [(⟨"bb"⟩ : Identifier)] })) :=
  c3_currency_merge.1 regionsFix none euroItems rowRecBar ["EUR"] "EUR"
    [aLinkT "/wiki/Barland" "Barland" "Barland"] ⟨"bb"⟩ regionBar
    rfl rfl rfl rfl rfl

theorem ccStep_nodup (iso_3166 : Reg Region)
    (countries : Option (Reg (List String))) :
    ∀ (items : Reg CallingCode) (m : RowRec) (res : Reg CallingCode),
      ccStep iso_3166 countries items m = .ok res →
      (items.map Prod.fst).Nodup → (res.map Prod.fst).Nodup := by
  intro items m res h hn
  simp only [ccStep] at h
  repeat' split at h
  all_goals first
    | exact Except.noConfusion h
    | (rw [← Except.ok.inj h]; exact hn)
    | (rw [← Except.ok.inj h]; exact regInsert_nodup _ _ items hn)

/-- Claim C6: a calling-code row resolving to an already-populated key is
discarded and leaves the registry unchanged, the registry built by
`CallingCode::from_html` has pairwise distinct Region identifiers, and on
the concrete two-row document resolving twice to the same territory the
registry retains only the first row's code. -/
theorem c6_calling_code_unique :
    (∀ (iso_3166 : Reg Region) (countries : Option (Reg (List String)))
        (items : Reg CallingCode) (m : RowRec) (v1 : List Node) (code : String)
        (e : Node) (iso_id : Identifier) (reg : Region),
      rowGet m 1 = some (.children v1) →
      v1.findSome? (link_text_if "/wiki/") = some code →
      rowGet m 0 = some (.parent e) →
      region_by_opt iso_3166 countries (((e.texts.take 2).map trimS).get? 0)
        (((e.texts.take 2).map trimS).get? 1) = .ok (iso_id, reg) →
      regHasKey items iso_id = true →
      ccStep iso_3166 countries items m = .ok items)
    ∧ (∀ (html : Node) (iso_3166 : Reg Region)
        (countries : Option (Reg (List String))) (res : Reg CallingCode),
        CallingCode.from_html html iso_3166 countries = .ok res →
        (res.map Prod.fst).Nodup)
    ∧ CallingCode.from_html ccDoc regionsFix none = .ok [(⟨"aa"⟩, ⟨"+111"⟩)] := by
  refine ⟨?_, ?_, rfl⟩
  · intro iso_3166 countries items m v1 code e iso_id reg h1 hfind h0 hres hhas
    simp only [ccStep, h1, hfind, h0, hres, hhas, if_true]
  · intro html iso_3166 countries res h
    unfold CallingCode.from_html at h
    cases hm : map_from_table_data html (.sparse 5 ccCols) none with
    | error e => rw [hm] at h; exact Except.noConfusion h
    | ok rows =>
      rw [hm] at h
      exact foldlM_except_inv (ccStep iso_3166 countries)
        (fun s => (s.map Prod.fst).Nodup)
        (fun s b s2 hs hp => ccStep_nodup iso_3166 countries s b s2 hs hp)
        rows [] res h (by simp)

theorem c6_calling_code_unique_witness :
    ccStep regionsFix none ccItems rowRecCC = .ok ccItems :=
  c6_calling_code_unique.1 regionsFix none ccItems rowRecCC
    [aLink "/wiki/Tel" "+222"] "+222" (tdOf [.text "Fooland"]) ⟨"aa"⟩ regionFoo
    rfl rfl rfl rfl rfl

/-- Claim C10: the currency merge appends without a membership check, so two
rows with the same settlement code resolving to the same territory leave
that identifier twice in the `regions` list — unlike the language zone pass,
whose containment check keeps a region credited at most once even when the
same cell is processed twice. -/
theorem c10_currency_duplicate_regions :
    Currency.from_html currencyDupDoc regionsFix none = .ok [(⟨"eur"⟩, euroDup)]
    ∧ euroDup.regions = [⟨"aa"⟩, ⟨"aa"⟩]
    ∧ euroDup.regions.count ⟨"aa"⟩ = 2
    ∧ process_td_cell langCell langsFix ⟨"aa"⟩ = [(⟨"fra"⟩, frenchAA)]
    ∧ process_td_cell langCell [(⟨"fra"⟩, frenchAA)] ⟨"aa"⟩ = [(⟨"fra"⟩, frenchAA)]
    ∧ frenchAA.regions.count ⟨"aa"⟩ = 1 :=
  ⟨rfl, rfl, by decide, rfl, rfl, by decide⟩

end Wikibase
